import Mathlib

/-
  Verification development for the pointer-network model in `model.py`.

  The tensor programs are shallowly embedded over the reals: a tensor of
  shape (B, L, H) becomes a function `Fin B → Fin L → Fin H → ℝ`, and the
  per-row primitives (`masked_log_softmax`, `masked_max`) are embedded as
  functions on a single row `Fin n → ℝ`, which is how the PyTorch code
  applies them (always along the last, candidate axis).

  External library collaborators (the `nn.LSTM` encoder and the
  `nn.LSTMCell` step decoder) are modelled as abstract function
  parameters: each is, per its library contract, a pure function of its
  learned parameters and inputs.  The sortedness check performed by
  `torch.nn.utils.rnn.pack_padded_sequence` (with its default
  `enforce_sorted=True`) is modelled explicitly, since `Encoder.forward`
  relies on it.
-/

set_option maxHeartbeats 1000000

noncomputable section

/-- The epsilon added to the float mask before taking its logarithm
(`model.py` line 36: `vector + (mask + 1e-45).log()`). -/
def maskEps : ℝ := 1e-45

/-- The default sentinel that `masked_max` writes into invalid positions
(`model.py` line 46: `min_val: float = -1e7`). -/
def minValDefault : ℝ := -1e7

/-- The `mask.float()` conversion (`model.py` line 28): a boolean mask row
becomes a 0/1 real row. -/
def maskFloat {n : ℕ} (m : Fin n → Bool) : Fin n → ℝ :=
  fun j => if m j then 1 else 0

/-- The shifted score row `vector + (mask + 1e-45).log()` of
`model.py` line 36. -/
def shiftedScores {n : ℕ} (v : Fin n → ℝ) (m : Fin n → Bool) : Fin n → ℝ :=
  fun j => v j + Real.log (maskFloat m j + maskEps)

/-- `torch.nn.functional.log_softmax` along a row:
`x_j - log (Σ_k exp x_k)`. -/
def logSoftmax {n : ℕ} (x : Fin n → ℝ) : Fin n → ℝ :=
  fun j => x j - Real.log (∑ k, Real.exp (x k))

/-- `masked_log_softmax` of `model.py` lines 7-37 (mask present), on one
row along the candidate axis. -/
def masked_log_softmax {n : ℕ} (v : Fin n → ℝ) (m : Fin n → Bool) : Fin n → ℝ :=
  logSoftmax (shiftedScores v m)

/-- The `vector.masked_fill(one_minus_mask, min_val)` row of
`model.py` lines 66-67: positions with a false mask are replaced by the
sentinel `min_val`. -/
def replacedVector {n : ℕ} (v : Fin n → ℝ) (m : Fin n → Bool) (minVal : ℝ) :
    Fin n → ℝ :=
  fun j => if m j then v j else minVal

/-- Index of the maximum of a row, lowest index on ties, as
`torch.max(dim=...)` reports for a contiguous CPU tensor
(`model.py` line 68). -/
def argmaxIdx {n : ℕ} [NeZero n] (f : Fin n → ℝ) : Fin n :=
  (Finset.univ.filter fun j => ∀ k, f k ≤ f j).min' (by
    obtain ⟨b, _, hmax⟩ := Finset.exists_max_image Finset.univ f
      ⟨⟨0, Nat.pos_of_ne_zero (NeZero.ne n)⟩, Finset.mem_univ _⟩
    exact ⟨b, Finset.mem_filter.mpr
      ⟨Finset.mem_univ b, fun k => hmax k (Finset.mem_univ k)⟩⟩)

/-- `masked_max` of `model.py` lines 41-69, on one row along the reduced
axis: the sentinel-filled row is maximised and the pair
(max value, max index) is returned. -/
def masked_max {n : ℕ} [NeZero n] (v : Fin n → ℝ) (m : Fin n → Bool)
    (minVal : ℝ) : ℝ × Fin n :=
  (replacedVector v m minVal (argmaxIdx (replacedVector v m minVal)),
   argmaxIdx (replacedVector v m minVal))

/-- `row_mask_tensor = range_tensor < each_len_tensor`
(`model.py` lines 215-222): the arange runs along the last axis, so entry
(b, i, j) holds iff `j < input_lengths[b]`. -/
def rowMaskT {B L : ℕ} (len : Fin B → ℕ) (b : Fin B) (i j : Fin L) : Bool :=
  decide (j.val < len b)

/-- `col_mask_tensor = row_mask_tensor.transpose(1, 2)`
(`model.py` line 223). -/
def colMaskT {B L : ℕ} (len : Fin B → ℕ) (b : Fin B) (i j : Fin L) : Bool :=
  rowMaskT len b j i

/-- `mask_tensor = row_mask_tensor * col_mask_tensor`
(`model.py` line 224): the product of boolean tensors is their
conjunction. -/
def mask_tensor {B L : ℕ} (len : Fin B → ℕ) :
    Fin B → Fin L → Fin L → Bool :=
  fun b i j => rowMaskT len b i j && colMaskT len b i j

/-- The per-step mask slice `sub_mask = mask_tensor[:, i, :]`
(`model.py` line 232), with the step counter `i` kept as a natural
number, exactly as the Python loop counter is. -/
def subMask {B L : ℕ} (len : Fin B → ℕ) (i : ℕ) (b : Fin B) (j : Fin L) :
    Bool :=
  decide (j.val < len b) && decide (i < len b)

/-- A bias-free `nn.Linear(H, H)` applied to one vector:
`y_h = Σ_k W[h,k] x_k`. -/
def linearNoBias {H : ℕ} (W : Fin H → Fin H → ℝ) (x : Fin H → ℝ) :
    Fin H → ℝ :=
  fun h => ∑ k, W h k * x k

/-- The bias-free `nn.Linear(H, 1)` projection `vt`, followed by the
`squeeze(-1)` (`model.py` line 124). -/
def vtApply {H : ℕ} (vt : Fin H → ℝ) (y : Fin H → ℝ) : ℝ :=
  ∑ h, vt h * y h

/-- The unnormalised attention scores `u_i` of `Attention.forward`
(`model.py` lines 115-124): `vt(tanh(W1 enc_j + W2 dec))`, one score per
candidate position of one batch element. -/
def attnRawScores {L H : ℕ} (W1 W2 : Fin H → Fin H → ℝ) (vt : Fin H → ℝ)
    (decState : Fin H → ℝ) (enc : Fin L → Fin H → ℝ) : Fin L → ℝ :=
  fun j => vtApply vt
    (fun h => Real.tanh (linearNoBias W1 (enc j) h + linearNoBias W2 decState h))

/-- `Attention.forward` (`model.py` lines 115-130): raw scores followed by
the masked log-softmax over the candidate axis. -/
def attn_forward {L H : ℕ} (W1 W2 : Fin H → Fin H → ℝ) (vt : Fin H → ℝ)
    (decState : Fin H → ℝ) (enc : Fin L → Fin H → ℝ) (m : Fin L → Bool) :
    Fin L → ℝ :=
  masked_log_softmax (attnRawScores W1 W2 vt decState enc) m

/-- The learned pieces that the decode loop uses: the three attention
matrices and the `nn.LSTMCell` step decoder, the latter abstracted (per
its library contract) to a pure per-batch-element function
`input → hidden → cell → (hidden, cell)`. -/
structure DecoderPar (H : ℕ) where
  W1 : Fin H → Fin H → ℝ
  W2 : Fin H → Fin H → ℝ
  vt : Fin H → ℝ
  cellFn : (Fin H → ℝ) → (Fin H → ℝ) → (Fin H → ℝ) →
    (Fin H → ℝ) × (Fin H → ℝ)

/-- The state carried from one decode step to the next
(`model.py` lines 206-258): the decoder input and the (hidden, cell)
pair, one vector of each per batch element. -/
structure DecState (B H : ℕ) where
  inp : Fin B → Fin H → ℝ
  hid : Fin B → Fin H → ℝ
  cel : Fin B → Fin H → ℝ

/-- One iteration of the decode loop body (`model.py` lines 229-258):
advance the LSTM cell, score all candidates with attention under the
step mask, take the masked argmax, and gather the encoder row at the
selected index as the next decoder input.  Returns (this step's log
scores, this step's selected indices, next state). -/
def runStep {B L H : ℕ} [NeZero L] (P : DecoderPar H)
    (enc : Fin B → Fin L → Fin H → ℝ) (len : Fin B → ℕ) (i : ℕ)
    (s : DecState B H) :
    (Fin B → Fin L → ℝ) × (Fin B → Fin L) × DecState B H :=
  let hc := fun b => P.cellFn (s.inp b) (s.hid b) (s.cel b)
  let score := fun b =>
    attn_forward P.W1 P.W2 P.vt (hc b).1 (enc b) (subMask len i b)
  let idx := fun b => (masked_max (score b) (subMask len i b) minValDefault).2
  (score, idx,
    ⟨fun b => enc b (idx b), fun b => (hc b).1, fun b => (hc b).2⟩)

/-- The decode-loop state after `i` iterations, starting from the zero
decoder input (`model.py` lines 206-209) and the given initial
(hidden, cell) pair. -/
def decodeStates {B L H : ℕ} [NeZero L] (P : DecoderPar H)
    (enc : Fin B → Fin L → Fin H → ℝ) (len : Fin B → ℕ)
    (h0 c0 : Fin B → Fin H → ℝ) : ℕ → DecState B H
  | 0 => ⟨fun _ _ => 0, h0, c0⟩
  | i + 1 => (runStep P enc len i (decodeStates P enc len h0 c0 i)).2.2

/-- The log-score row produced at step `i` (`log_pointer_score` of
`model.py` line 242). -/
def decScore {B L H : ℕ} [NeZero L] (P : DecoderPar H)
    (enc : Fin B → Fin L → Fin H → ℝ) (len : Fin B → ℕ)
    (h0 c0 : Fin B → Fin H → ℝ) (i : ℕ) : Fin B → Fin L → ℝ :=
  (runStep P enc len i (decodeStates P enc len h0 c0 i)).1

/-- The selected index produced at step `i` (`masked_argmax` of
`model.py` line 246). -/
def decIdx {B L H : ℕ} [NeZero L] (P : DecoderPar H)
    (enc : Fin B → Fin L → Fin H → ℝ) (len : Fin B → ℕ)
    (h0 c0 : Fin B → Fin H → ℝ) (i : ℕ) : Fin B → Fin L :=
  (runStep P enc len i (decodeStates P enc len h0 c0 i)).2.1

/-- The stacked log scores `torch.stack(pointer_log_scores, 1)`
(`model.py` line 260): entry (b, i, j) is step i's log score of
candidate j. -/
def pointer_log_scores {B L H : ℕ} [NeZero L] (P : DecoderPar H)
    (enc : Fin B → Fin L → Fin H → ℝ) (len : Fin B → ℕ)
    (h0 c0 : Fin B → Fin H → ℝ) : Fin B → Fin L → Fin L → ℝ :=
  fun b i j => decScore P enc len h0 c0 i.val b j

/-- The concatenated selected indices `torch.cat(pointer_argmaxs, 1)`
(`model.py` line 261): entry (b, i) is the index selected at step i. -/
def pointer_argmaxs {B L H : ℕ} [NeZero L] (P : DecoderPar H)
    (enc : Fin B → Fin L → Fin H → ℝ) (len : Fin B → ℕ)
    (h0 c0 : Fin B → Fin H → ℝ) : Fin B → Fin L → Fin L :=
  fun b i => decIdx P enc len h0 c0 i.val b

/-- The bias-free `self.embedding` input projection
(`model.py` lines 155-157 and 183). -/
def embeddingLayer {B L Din De : ℕ} (W : Fin De → Fin Din → ℝ)
    (x : Fin B → Fin L → Fin Din → ℝ) : Fin B → Fin L → Fin De → ℝ :=
  fun b t e => ∑ d, W e d * x b t d

/-- The bidirectional-sum reduction of the raw encoder output
(`model.py` lines 191-196): the first H channels plus the last H
channels. -/
def bidirSum {B L H : ℕ} (raw : Fin B → Fin L → Fin (H + H) → ℝ) :
    Fin B → Fin L → Fin H → ℝ :=
  fun b t k =>
    raw b t ⟨k.val, Nat.lt_of_lt_of_le k.isLt (Nat.le_add_right H H)⟩ +
    raw b t ⟨H + k.val, Nat.add_lt_add_left k.isLt H⟩

/-- The `encoder_h_n.view(num_layers, num_directions, batch, hidden)`
reshape of `model.py` lines 199-204, for the hard-coded
`num_layers = 1`, `num_directions = 2` configuration: flat slot
`l * 2 + d` becomes entry (l, d). -/
def hnView {B H : ℕ} (hN : Fin 2 → Fin B → Fin H → ℝ) (l : Fin 1)
    (d : Fin 2) : Fin B → Fin H → ℝ :=
  hN ⟨l.val * 2 + d.val, by have h1 := l.isLt; have h2 := d.isLt; omega⟩

/-- The initial decoder hidden (or cell) slice
`encoder_h_n[-1, 0, :, :].squeeze()` of `model.py` lines 210-213: the
last layer (index -1, here 0) and direction index 0.  The trailing
`.squeeze()` never changes the entries, only the shape, so the values
are these; its shape effect — dropping the singleton axes at B = 1 or
H = 1, which makes the first `nn.LSTMCell` call raise on the no longer
2-D state — is modelled by the `squeezeShape` guard in
`pointerNetForward`. -/
def initDecoderHidden {B H : ℕ} (hN : Fin 2 → Fin B → Fin H → ℝ) :
    Fin B → Fin H → ℝ :=
  hnView hN ⟨0, by omega⟩ ⟨0, by omega⟩

/-- Shape-level model of `torch.squeeze()` with no axis argument: every
axis of size 1 is dropped. -/
def squeezeShape (s : List ℕ) : List ℕ :=
  s.filter (fun d => decide (d ≠ 1))

/-- Shape of the initial decoder hidden (and cell) state built by
`model.py` lines 210-213: the `[-1, 0, :, :]` slice of the viewed
hidden tensor has shape (B, H), and the trailing `.squeeze()` then
drops every singleton axis. -/
def initDecoderHiddenShape (B H : ℕ) : List ℕ :=
  squeezeShape [B, H]

/-- The check performed by `nn.utils.rnn.pack_padded_sequence` with its
default `enforce_sorted=True` (`model.py` lines 94-96): the length
vector must be sorted in non-increasing order, otherwise the call
raises. -/
def lengthsSortedDesc {B : ℕ} (len : Fin B → ℕ) : Bool :=
  decide (∀ a b : Fin B, a ≤ b → len b ≤ len a)

/-- `PointerNet.forward` (`model.py` lines 173-263) with
`batch_first = True` and `bidirectional = True` (the constructor
defaults): embed the input, run the abstract encoder collaborator
`encFn` (whose packing step raises on unsorted lengths, modelled as an
error result), sum the two directions, initialise the decoder state
from the `[-1, 0, :, :].squeeze()` slice of the final hidden/cell
tensors, and run the decode loop for every step, returning the stacked
log scores, the selected indices and the validity mask.  The squeezed
initial state keeps its 2-D (B, H) shape only when neither axis is a
singleton: otherwise the first `nn.LSTMCell` call of the loop (always
reached, as at least one step runs) raises on the mismatched hidden
shape, modelled as the second error result. -/
def pointerNetForward {B L H Din De : ℕ} [NeZero L]
    (embW : Fin De → Fin Din → ℝ)
    (encFn : (Fin B → Fin L → Fin De → ℝ) → (Fin B → ℕ) →
      (Fin B → Fin L → Fin (H + H) → ℝ) ×
      (Fin 2 → Fin B → Fin H → ℝ) × (Fin 2 → Fin B → Fin H → ℝ))
    (P : DecoderPar H) (inputSeq : Fin B → Fin L → Fin Din → ℝ)
    (len : Fin B → ℕ) :
    Except Unit ((Fin B → Fin L → Fin L → ℝ) ×
      (Fin B → Fin L → Fin L) × (Fin B → Fin L → Fin L → Bool)) :=
  if lengthsSortedDesc len then
    if squeezeShape [B, H] = [B, H] then
      let eo := encFn (embeddingLayer embW inputSeq) len
      let enc := bidirSum eo.1
      let h0 := initDecoderHidden eo.2.1
      let c0 := initDecoderHidden eo.2.2
      Except.ok (pointer_log_scores P enc len h0 c0,
        pointer_argmaxs P enc len h0 c0, mask_tensor len)
    else Except.error ()
  else Except.error ()

/-- Spec-side definition, following the words of the specification: the
initial decoder state should be the encoder's final-layer,
final-direction hidden/cell slice, which for the bidirectional
(`num_directions = 2`) encoder is direction index 1. -/
def specFinalDirectionInit {B H : ℕ} (hN : Fin 2 → Fin B → Fin H → ℝ) :
    Fin B → Fin H → ℝ :=
  hnView hN ⟨0, by omega⟩ ⟨1, by omega⟩

/-- Spec-side description of one decode step, following the
specification's five-step list: the step decoder is advanced with the
current input/state; the attention log scores are computed from the new
hidden state under the step-i slice of the validity mask; the selected
index is the masked argmax of those scores under the same mask; and the
encoder output row at the selected index becomes the next step's
decoder input. -/
def decodeStepSpec {B L H : ℕ} [NeZero L] (P : DecoderPar H)
    (enc : Fin B → Fin L → Fin H → ℝ) (len : Fin B → ℕ)
    (h0 c0 : Fin B → Fin H → ℝ) : Prop :=
  ∀ (i : Fin L) (b : Fin B),
    (decodeStates P enc len h0 c0 (i.val + 1)).hid b =
      (P.cellFn ((decodeStates P enc len h0 c0 i.val).inp b)
        ((decodeStates P enc len h0 c0 i.val).hid b)
        ((decodeStates P enc len h0 c0 i.val).cel b)).1 ∧
    (decodeStates P enc len h0 c0 (i.val + 1)).cel b =
      (P.cellFn ((decodeStates P enc len h0 c0 i.val).inp b)
        ((decodeStates P enc len h0 c0 i.val).hid b)
        ((decodeStates P enc len h0 c0 i.val).cel b)).2 ∧
    decScore P enc len h0 c0 i.val b =
      attn_forward P.W1 P.W2 P.vt
        ((decodeStates P enc len h0 c0 (i.val + 1)).hid b) (enc b)
        (fun j => mask_tensor len b i j) ∧
    decIdx P enc len h0 c0 i.val b =
      (masked_max (decScore P enc len h0 c0 i.val b)
        (fun j => mask_tensor len b i j) minValDefault).2 ∧
    (decodeStates P enc len h0 c0 (i.val + 1)).inp b =
      enc b (decIdx P enc len h0 c0 i.val b)

/-- Spec-side description of the whole forward pass on sorted lengths:
the call succeeds, returns exactly the stacked step-major log scores,
the stacked selected indices and the full validity mask, and every one
of its decode steps follows the specification's five-step structure. -/
def forwardMatchesStepSpec {B L H Din De : ℕ} [NeZero L]
    (embW : Fin De → Fin Din → ℝ)
    (encFn : (Fin B → Fin L → Fin De → ℝ) → (Fin B → ℕ) →
      (Fin B → Fin L → Fin (H + H) → ℝ) ×
      (Fin 2 → Fin B → Fin H → ℝ) × (Fin 2 → Fin B → Fin H → ℝ))
    (P : DecoderPar H) (x : Fin B → Fin L → Fin Din → ℝ)
    (len : Fin B → ℕ) : Prop :=
  pointerNetForward embW encFn P x len =
    Except.ok
      (pointer_log_scores P (bidirSum (encFn (embeddingLayer embW x) len).1)
        len (initDecoderHidden (encFn (embeddingLayer embW x) len).2.1)
        (initDecoderHidden (encFn (embeddingLayer embW x) len).2.2),
      pointer_argmaxs P (bidirSum (encFn (embeddingLayer embW x) len).1)
        len (initDecoderHidden (encFn (embeddingLayer embW x) len).2.1)
        (initDecoderHidden (encFn (embeddingLayer embW x) len).2.2),
      mask_tensor len) ∧
  decodeStepSpec P (bidirSum (encFn (embeddingLayer embW x) len).1) len
    (initDecoderHidden (encFn (embeddingLayer embW x) len).2.1)
    (initDecoderHidden (encFn (embeddingLayer embW x) len).2.2)

/-- Spec-side description of the decode loop's initial state, amended to
what the code builds: zero decoder input, and the final-layer
direction-index-0 slices of the encoder's hidden and cell tensors as
the initial (hidden, cell) pair. -/
def initialStateSpec {B L H Din De : ℕ} [NeZero L]
    (embW : Fin De → Fin Din → ℝ)
    (encFn : (Fin B → Fin L → Fin De → ℝ) → (Fin B → ℕ) →
      (Fin B → Fin L → Fin (H + H) → ℝ) ×
      (Fin 2 → Fin B → Fin H → ℝ) × (Fin 2 → Fin B → Fin H → ℝ))
    (P : DecoderPar H) (x : Fin B → Fin L → Fin Din → ℝ)
    (len : Fin B → ℕ) : Prop :=
  decodeStates P (bidirSum (encFn (embeddingLayer embW x) len).1) len
      (initDecoderHidden (encFn (embeddingLayer embW x) len).2.1)
      (initDecoderHidden (encFn (embeddingLayer embW x) len).2.2) 0 =
    ⟨fun _ _ => 0,
      hnView (encFn (embeddingLayer embW x) len).2.1 ⟨0, Nat.one_pos⟩
        ⟨0, Nat.two_pos⟩,
      hnView (encFn (embeddingLayer embW x) len).2.2 ⟨0, Nat.one_pos⟩
        ⟨0, Nat.two_pos⟩⟩

theorem argmaxIdx_isMax {n : ℕ} [NeZero n] (f : Fin n → ℝ) (k : Fin n) :
    f k ≤ f (argmaxIdx f) := by
  unfold argmaxIdx
  have h := Finset.min'_mem (Finset.univ.filter fun j => ∀ k, f k ≤ f j) (by
    obtain ⟨b, _, hmax⟩ := Finset.exists_max_image Finset.univ f
      ⟨⟨0, Nat.pos_of_ne_zero (NeZero.ne n)⟩, Finset.mem_univ _⟩
    exact ⟨b, Finset.mem_filter.mpr
      ⟨Finset.mem_univ b, fun k => hmax k (Finset.mem_univ k)⟩⟩)
  exact (Finset.mem_filter.mp h).2 k

theorem argmax_replaced_unmasked {n : ℕ} [NeZero n] (v : Fin n → ℝ)
    (m : Fin n → Bool) (minVal : ℝ) (hne : ∃ j, m j = true)
    (hgt : ∀ j, m j = true → minVal < v j) :
    m (argmaxIdx (replacedVector v m minVal)) = true := by
  obtain ⟨j0, hj0⟩ := hne
  by_contra hmask
  rw [Bool.not_eq_true] at hmask
  have hmax := argmaxIdx_isMax (replacedVector v m minVal) j0
  rw [show replacedVector v m minVal j0 = v j0 by simp [replacedVector, hj0],
    show replacedVector v m minVal (argmaxIdx (replacedVector v m minVal)) =
      minVal by simp [replacedVector, hmask]] at hmax
  exact absurd hmax (not_le.mpr (hgt j0 hj0))

/-- Claim C2: the validity mask built by `PointerNet.forward` satisfies
`mask[b, i, j] = true` iff `i < length[b]` and `j < length[b]`; and in
the lengths = [4, 2] scenario, `mask[1, i, j]` is true only for `i < 2`
and `j < 2`. -/
theorem c2_mask_tensor_iff :
    (∀ (B L : ℕ) (len : Fin B → ℕ) (b : Fin B) (i j : Fin L),
      mask_tensor len b i j = true ↔ i.val < len b ∧ j.val < len b) ∧
    (∀ i j : Fin 4,
      mask_tensor (fun b : Fin 2 => if b.val = 0 then 4 else 2) 1 i j = true →
        i.val < 2 ∧ j.val < 2) := by
  constructor
  · intro B L len b i j
    simp only [mask_tensor, rowMaskT, colMaskT, Bool.and_eq_true,
      decide_eq_true_eq]
    exact and_comm
  · decide

/-- Claim C4: when at least one position is unmasked and every unmasked
score is strictly above the sentinel `min_val`, `masked_max` returns an
index whose mask entry is true, and its value both dominates every
unmasked score and is attained at the returned (unmasked) index — i.e.
it is the maximum of the scores over the unmasked positions. -/
theorem c4_masked_max_correct {n : ℕ} [NeZero n] (v : Fin n → ℝ)
    (m : Fin n → Bool) (minVal : ℝ) (hne : ∃ j, m j = true)
    (hgt : ∀ j, m j = true → minVal < v j) :
    m (masked_max v m minVal).2 = true ∧
    (∀ j, m j = true → v j ≤ (masked_max v m minVal).1) ∧
    (masked_max v m minVal).1 = v (masked_max v m minVal).2 := by
  have hmem := argmax_replaced_unmasked v m minVal hne hgt
  refine ⟨hmem, ?_, ?_⟩
  · intro j hj
    have h := argmaxIdx_isMax (replacedVector v m minVal) j
    rw [show replacedVector v m minVal j = v j by simp [replacedVector, hj]]
      at h
    exact h
  · show replacedVector v m minVal (argmaxIdx (replacedVector v m minVal)) = _
    simp [masked_max, replacedVector, hmem]

/-- Witness for C4 at a concrete input: scores (0, 0) on `Fin 2`, mask
(true, false), sentinel -1. -/
theorem c4_masked_max_correct_witness :
    (∃ j : Fin 2, (fun j : Fin 2 => decide (j.val = 0)) j = true) ∧
    (∀ j : Fin 2, (fun j : Fin 2 => decide (j.val = 0)) j = true →
      (-1 : ℝ) < (fun _ : Fin 2 => (0 : ℝ)) j) ∧
    ((fun j : Fin 2 => decide (j.val = 0))
        (masked_max (fun _ : Fin 2 => (0 : ℝ))
          (fun j : Fin 2 => decide (j.val = 0)) (-1)).2 = true ∧
      (∀ j, (fun j : Fin 2 => decide (j.val = 0)) j = true →
        (fun _ : Fin 2 => (0 : ℝ)) j ≤
          (masked_max (fun _ : Fin 2 => (0 : ℝ))
            (fun j : Fin 2 => decide (j.val = 0)) (-1)).1) ∧
      (masked_max (fun _ : Fin 2 => (0 : ℝ))
          (fun j : Fin 2 => decide (j.val = 0)) (-1)).1 =
        (fun _ : Fin 2 => (0 : ℝ))
          (masked_max (fun _ : Fin 2 => (0 : ℝ))
            (fun j : Fin 2 => decide (j.val = 0)) (-1)).2) :=
  ⟨by decide, by intro j hj; norm_num,
    c4_masked_max_correct (fun _ : Fin 2 => (0 : ℝ))
      (fun j : Fin 2 => decide (j.val = 0)) (-1) (by decide)
      (by intro j hj; norm_num)⟩

/-- Counterexample to claim C6: the decode loop's initial decoder state
is the `[-1, 0]` (last layer, direction index 0, i.e. forward-direction)
slice of the viewed encoder hidden tensor, not the final-direction
(index 1) slice: with a final hidden tensor whose two direction slices
hold the constants 0 and 1, the two disagree. -/
theorem c6_counterexample :
    ¬ (initDecoderHidden
        (fun d : Fin 2 => fun _ : Fin 1 => fun _ : Fin 1 => (d.val : ℝ)) =
      specFinalDirectionInit
        (fun d : Fin 2 => fun _ : Fin 1 => fun _ : Fin 1 => (d.val : ℝ))) := by
  intro h
  have h0 := congrFun (congrFun h 0) 0
  simp only [initDecoderHidden, specFinalDirectionInit, hnView] at h0
  norm_num at h0

/-- Claim C6 (amended): for every input batch, the decode loop's initial
state has the zero vector as decoder input and the encoder's final-layer
direction-index-0 (forward-direction) hidden and cell slices as its
(hidden, cell) pair. -/
theorem c6_initial_state {B L H Din De : ℕ} [NeZero L]
    (embW : Fin De → Fin Din → ℝ)
    (encFn : (Fin B → Fin L → Fin De → ℝ) → (Fin B → ℕ) →
      (Fin B → Fin L → Fin (H + H) → ℝ) ×
      (Fin 2 → Fin B → Fin H → ℝ) × (Fin 2 → Fin B → Fin H → ℝ))
    (P : DecoderPar H) (x : Fin B → Fin L → Fin Din → ℝ)
    (len : Fin B → ℕ) :
    initialStateSpec embW encFn P x len :=
  rfl

/-- Witness for the amended C6 at a concrete input: B = 2, L = 1,
all-zero parameters and inputs. -/
theorem c6_initial_state_witness :
    NeZero 1 ∧
    @initialStateSpec 2 1 1 1 1 ⟨Nat.one_ne_zero⟩ (fun _ _ => 0)
      (fun _ _ => (fun _ _ _ => 0, fun _ _ _ => 0, fun _ _ _ => 0))
      ⟨fun _ _ => 0, fun _ _ => 0, fun _ => 0,
        fun _ _ _ => (fun _ => 0, fun _ => 0)⟩
      (fun _ _ _ => 0) (fun _ : Fin 2 => 1) :=
  ⟨⟨Nat.one_ne_zero⟩,
    @c6_initial_state 2 1 1 1 1 ⟨Nat.one_ne_zero⟩ (fun _ _ => 0)
      (fun _ _ => (fun _ _ _ => 0, fun _ _ _ => 0, fun _ _ _ => 0))
      ⟨fun _ _ => 0, fun _ _ => 0, fun _ => 0,
        fun _ _ _ => (fun _ => 0, fun _ => 0)⟩
      (fun _ _ _ => 0) (fun _ : Fin 2 => 1)⟩

/-- Claim C9 (as a code bug): evaluation of the shape of the initial
decoder state at the failing input B = 1, H = 2: the `[-1, 0, :, :]`
slice has shape (1, 2), and the trailing `.squeeze()` drops the
batch axis, giving shape (2,) instead of the documented
(batch_size, hidden_size). -/
theorem c9_squeeze_collapses_batch_one :
    initDecoderHiddenShape 1 2 = [2] ∧ initDecoderHiddenShape 1 2 ≠ [1, 2] := by
  decide

/-- Claim C10: with lengths inside the stated contract but not sorted in
non-increasing order, `PointerNet.forward` raises (the encoder packs the
batch with the default enforce-sorted behaviour) instead of returning
outputs. -/
theorem c10_unsorted_lengths_error {B L H Din De : ℕ} [NeZero L]
    (embW : Fin De → Fin Din → ℝ)
    (encFn : (Fin B → Fin L → Fin De → ℝ) → (Fin B → ℕ) →
      (Fin B → Fin L → Fin (H + H) → ℝ) ×
      (Fin 2 → Fin B → Fin H → ℝ) × (Fin 2 → Fin B → Fin H → ℝ))
    (P : DecoderPar H) (x : Fin B → Fin L → Fin Din → ℝ)
    (len : Fin B → ℕ) (hvalid : ∀ b, 1 ≤ len b ∧ len b ≤ L)
    (hunsorted : lengthsSortedDesc len = false) :
    pointerNetForward embW encFn P x len = Except.error () := by
  simp [pointerNetForward, hunsorted]

/-- Witness for C10 at a concrete input: B = 2, L = 2, lengths (1, 2) —
each length is in [1, L] but the vector is not sorted in non-increasing
order, and the forward call errors. -/
theorem c10_unsorted_lengths_error_witness :
    (∀ b : Fin 2,
      1 ≤ (fun b : Fin 2 => if b.val = 0 then 1 else 2) b ∧
        (fun b : Fin 2 => if b.val = 0 then 1 else 2) b ≤ 2) ∧
    lengthsSortedDesc (fun b : Fin 2 => if b.val = 0 then 1 else 2) = false ∧
    @pointerNetForward 2 2 1 1 1 (by infer_instance)
        (fun _ _ => 0)
        (fun _ _ => (fun _ _ _ => 0, fun _ _ _ => 0, fun _ _ _ => 0))
        ⟨fun _ _ => 0, fun _ _ => 0, fun _ => 0,
          fun _ _ _ => (fun _ => 0, fun _ => 0)⟩
        (fun _ _ _ => 0) (fun b : Fin 2 => if b.val = 0 then 1 else 2) =
      Except.error () :=
  ⟨by decide, by decide,
    c10_unsorted_lengths_error _ _ _ _ _ (by decide) (by decide)⟩

/-- Counterexample to claim C1 as stated for every input batch: at the
B = 1, H = 2 batch (sorted lengths, all-zero parameters), the
`.squeeze()` of the initial decoder state drops the singleton batch
axis and the first `nn.LSTMCell` call raises, so the forward pass
errors before producing any outputs — it does not run the decode steps
and return the stacked outputs the claim asserts. -/
theorem c1_counterexample :
    ¬ @forwardMatchesStepSpec 1 1 2 1 1 (by infer_instance)
      (fun _ _ => 0)
      (fun _ _ => (fun _ _ _ => 0, fun _ _ _ => 0, fun _ _ _ => 0))
      ⟨fun _ _ => 0, fun _ _ => 0, fun _ => 0,
        fun _ _ _ => (fun _ => 0, fun _ => 0)⟩
      (fun _ _ _ => 0) (fun _ : Fin 1 => 1) := by
  intro h
  obtain ⟨h1, _⟩ := h
  rw [show @pointerNetForward 1 1 2 1 1 (by infer_instance)
      (fun _ _ => 0)
      (fun _ _ => (fun _ _ _ => 0, fun _ _ _ => 0, fun _ _ _ => 0))
      ⟨fun _ _ => 0, fun _ _ => 0, fun _ => 0,
        fun _ _ _ => (fun _ => 0, fun _ => 0)⟩
      (fun _ _ _ => 0) (fun _ : Fin 1 => 1) = Except.error () by
    unfold pointerNetForward
    rw [if_pos (by decide), if_neg (by decide)]] at h1
  exact absurd h1 (by simp)

/-- Claim C1 (amended): on every batch whose lengths pass the packing
check and whose batch size and hidden size are both different from 1
(so the `.squeeze()` of the initial decoder state is a no-op and the
LSTM cell accepts it), each decode step of `PointerNet.forward`
advances the LSTM cell with the current input and state, computes
attention log scores from the new hidden state under the step-i mask
slice, takes the masked argmax of those scores under the same mask, and
gathers the encoder row at the selected index as the next input;
exactly max-sequence-length steps run and the outputs are the stacked
step-major log scores, the stacked selected indices and the full
validity mask. -/
theorem c1_decode_loop_structure {B L H Din De : ℕ} [NeZero L]
    (embW : Fin De → Fin Din → ℝ)
    (encFn : (Fin B → Fin L → Fin De → ℝ) → (Fin B → ℕ) →
      (Fin B → Fin L → Fin (H + H) → ℝ) ×
      (Fin 2 → Fin B → Fin H → ℝ) × (Fin 2 → Fin B → Fin H → ℝ))
    (P : DecoderPar H) (x : Fin B → Fin L → Fin Din → ℝ)
    (len : Fin B → ℕ) (hsorted : lengthsSortedDesc len = true)
    (hB : B ≠ 1) (hH : H ≠ 1) :
    forwardMatchesStepSpec embW encFn P x len := by
  unfold forwardMatchesStepSpec
  constructor
  · unfold pointerNetForward
    rw [if_pos hsorted, if_pos (by simp [squeezeShape, hB, hH])]
  · intro i b
    exact ⟨rfl, rfl, rfl, rfl, rfl⟩

/-- Witness for the amended C1 at a concrete input: B = 2, L = 1,
H = 2, all-zero parameters and inputs, lengths (1, 1). -/
theorem c1_decode_loop_structure_witness :
    lengthsSortedDesc (fun _ : Fin 2 => 1) = true ∧ (2 : ℕ) ≠ 1 ∧
    @forwardMatchesStepSpec 2 1 2 1 1 (by infer_instance)
      (fun _ _ => 0)
      (fun _ _ => (fun _ _ _ => 0, fun _ _ _ => 0, fun _ _ _ => 0))
      ⟨fun _ _ => 0, fun _ _ => 0, fun _ => 0,
        fun _ _ _ => (fun _ => 0, fun _ => 0)⟩
      (fun _ _ _ => 0) (fun _ : Fin 2 => 1) :=
  ⟨by decide, by decide,
    @c1_decode_loop_structure 2 1 2 1 1 (by infer_instance)
      (fun _ _ => 0)
      (fun _ _ => (fun _ _ _ => 0, fun _ _ _ => 0, fun _ _ _ => 0))
      ⟨fun _ _ => 0, fun _ _ => 0, fun _ => 0,
        fun _ _ _ => (fun _ => 0, fun _ => 0)⟩
      (fun _ _ _ => 0) (fun _ : Fin 2 => 1) (by decide) (by decide)
      (by decide)⟩

/-- Claim C8: the forward pass is a deterministic function of its
parameters and inputs — two invocations with equal learned parameters
(embedding matrix, encoder collaborator, decoder parameters) and equal
inputs produce identical outputs. -/
theorem c8_forward_deterministic {B L H Din De : ℕ} [NeZero L]
    (embW embW' : Fin De → Fin Din → ℝ)
    (encFn encFn' : (Fin B → Fin L → Fin De → ℝ) → (Fin B → ℕ) →
      (Fin B → Fin L → Fin (H + H) → ℝ) ×
      (Fin 2 → Fin B → Fin H → ℝ) × (Fin 2 → Fin B → Fin H → ℝ))
    (P P' : DecoderPar H) (x x' : Fin B → Fin L → Fin Din → ℝ)
    (len len' : Fin B → ℕ) (h1 : embW = embW') (h2 : encFn = encFn')
    (h3 : P = P') (h4 : x = x') (h5 : len = len') :
    pointerNetForward embW encFn P x len =
      pointerNetForward embW' encFn' P' x' len' := by
  rw [h1, h2, h3, h4, h5]

/-- Witness for C8 at a concrete input: B = 2, L = 1, all-zero
parameters and inputs, with each equality hypothesis discharged by
reflexivity. -/
theorem c8_forward_deterministic_witness :
    ((fun _ _ : Fin 1 => (0 : ℝ)) = (fun _ _ : Fin 1 => (0 : ℝ))) ∧
    ((fun _ _ => (fun _ _ _ => 0, fun _ _ _ => 0, fun _ _ _ => 0) :
        (Fin 2 → Fin 1 → Fin 1 → ℝ) → (Fin 2 → ℕ) →
        (Fin 2 → Fin 1 → Fin (1 + 1) → ℝ) ×
        (Fin 2 → Fin 2 → Fin 1 → ℝ) × (Fin 2 → Fin 2 → Fin 1 → ℝ)) =
      (fun _ _ => (fun _ _ _ => 0, fun _ _ _ => 0, fun _ _ _ => 0))) ∧
    ((⟨fun _ _ => 0, fun _ _ => 0, fun _ => 0,
        fun _ _ _ => (fun _ => 0, fun _ => 0)⟩ : DecoderPar 1) =
      ⟨fun _ _ => 0, fun _ _ => 0, fun _ => 0,
        fun _ _ _ => (fun _ => 0, fun _ => 0)⟩) ∧
    ((fun _ _ _ => (0 : ℝ)) = (fun _ _ _ : Fin 2 => (0 : ℝ))) ∧
    ((fun _ : Fin 2 => (1 : ℕ)) = (fun _ : Fin 2 => (1 : ℕ))) ∧
    @pointerNetForward 2 1 1 1 1 (by infer_instance) (fun _ _ => 0)
        (fun _ _ => (fun _ _ _ => 0, fun _ _ _ => 0, fun _ _ _ => 0))
        ⟨fun _ _ => 0, fun _ _ => 0, fun _ => 0,
          fun _ _ _ => (fun _ => 0, fun _ => 0)⟩
        (fun _ _ _ => 0) (fun _ : Fin 2 => 1) =
      @pointerNetForward 2 1 1 1 1 (by infer_instance) (fun _ _ => 0)
        (fun _ _ => (fun _ _ _ => 0, fun _ _ _ => 0, fun _ _ _ => 0))
        ⟨fun _ _ => 0, fun _ _ => 0, fun _ => 0,
          fun _ _ _ => (fun _ => 0, fun _ => 0)⟩
        (fun _ _ _ => 0) (fun _ : Fin 2 => 1) :=
  ⟨rfl, rfl, rfl, rfl, rfl,
    @c8_forward_deterministic 2 1 1 1 1 (by infer_instance)
      (fun _ _ => 0) (fun _ _ => 0)
      (fun _ _ => (fun _ _ _ => 0, fun _ _ _ => 0, fun _ _ _ => 0))
      (fun _ _ => (fun _ _ _ => 0, fun _ _ _ => 0, fun _ _ _ => 0))
      ⟨fun _ _ => 0, fun _ _ => 0, fun _ => 0,
        fun _ _ _ => (fun _ => 0, fun _ => 0)⟩
      ⟨fun _ _ => 0, fun _ _ => 0, fun _ => 0,
        fun _ _ _ => (fun _ => 0, fun _ => 0)⟩
      (fun _ _ _ => 0) (fun _ _ _ => 0)
      (fun _ : Fin 2 => 1) (fun _ : Fin 2 => 1)
      rfl rfl rfl rfl rfl⟩

/-- Counterexample to claim C5: with lengths (2, 1) — every length at
least 1 — the index selected for batch element 1 at decode step 1 does
not have a true mask entry, because for steps at or beyond a sequence's
true length the whole step-mask row is false. -/
theorem c5_counterexample :
    (∀ b : Fin 2, 1 ≤ (fun b : Fin 2 => if b.val = 0 then 2 else 1) b) ∧
    ¬ (subMask (fun b : Fin 2 => if b.val = 0 then 2 else 1) 1 1
        (@decIdx 2 2 1 (by infer_instance)
          ⟨fun _ _ => 0, fun _ _ => 0, fun _ => 0,
            fun _ _ _ => (fun _ => 0, fun _ => 0)⟩
          (fun _ _ _ => 0) (fun b : Fin 2 => if b.val = 0 then 2 else 1)
          (fun _ _ => 0) (fun _ _ => 0) 1 1) = true) := by
  refine ⟨by decide, ?_⟩
  intro h
  rw [show subMask (fun b : Fin 2 => if b.val = 0 then 2 else 1) 1 1 =
      fun _ => false by
    funext j
    simp [subMask]] at h
  exact Bool.false_ne_true h

/-- Claim C5 (amended): if every length is at least 1 and every unmasked
log score stays strictly above the sentinel, then at every decode step
`i < length[b]` the selected index for batch element b has a true mask
entry at that step — in particular it is below `length[b]` — while at
every step `i ≥ length[b]` the step-mask row for b is entirely false,
so no selected index can satisfy the mask there. -/
theorem c5_selected_index_in_mask {B L H : ℕ} [NeZero L] (P : DecoderPar H)
    (enc : Fin B → Fin L → Fin H → ℝ) (len : Fin B → ℕ)
    (h0 c0 : Fin B → Fin H → ℝ) (hlen : ∀ b, 1 ≤ len b)
    (hsc : ∀ (i : ℕ) (b : Fin B) (j : Fin L), i < len b →
      subMask len i b j = true →
      minValDefault < decScore P enc len h0 c0 i b j) :
    ∀ (b : Fin B) (i : ℕ),
      (i < len b →
        subMask len i b (decIdx P enc len h0 c0 i b) = true ∧
        (decIdx P enc len h0 c0 i b).val < len b) ∧
      (len b ≤ i → ∀ j : Fin L, subMask len i b j = false) := by
  intro b i
  constructor
  · intro hi
    have hL0 : 0 < L := Nat.pos_of_ne_zero (NeZero.ne L)
    have hne : ∃ j : Fin L, subMask len i b j = true := by
      refine ⟨⟨0, hL0⟩, ?_⟩
      simp only [subMask, Bool.and_eq_true, decide_eq_true_eq]
      exact ⟨Nat.lt_of_lt_of_le Nat.zero_lt_one (hlen b), hi⟩
    have hmem : subMask len i b (decIdx P enc len h0 c0 i b) = true :=
      argmax_replaced_unmasked (decScore P enc len h0 c0 i b)
        (subMask len i b) minValDefault hne (fun j hj => hsc i b j hi hj)
    refine ⟨hmem, ?_⟩
    have h2 := hmem
    simp only [subMask, Bool.and_eq_true, decide_eq_true_eq] at h2
    exact h2.1
  · intro hge j
    rw [subMask, decide_eq_false (not_lt.mpr hge), Bool.and_false]

/-- Witness for C5 at a concrete input: B = 2, L = 1, H = 1, all-zero
parameters, lengths (1, 1); the unmasked log score at the only step is
0, which is above the sentinel. -/
theorem c5_selected_index_in_mask_witness :
    (∀ b : Fin 2, 1 ≤ (fun _ : Fin 2 => 1) b) ∧
    (∀ (i : ℕ) (b : Fin 2) (j : Fin 1), i < (fun _ : Fin 2 => 1) b →
      subMask (fun _ : Fin 2 => 1) i b j = true →
      minValDefault <
        @decScore 2 1 1 (by infer_instance)
          ⟨fun _ _ => 0, fun _ _ => 0, fun _ => 0,
            fun _ _ _ => (fun _ => 0, fun _ => 0)⟩
          (fun _ _ _ => 0) (fun _ : Fin 2 => 1) (fun _ _ => 0)
          (fun _ _ => 0) i b j) ∧
    (∀ (b : Fin 2) (i : ℕ),
      (i < (fun _ : Fin 2 => 1) b →
        subMask (fun _ : Fin 2 => 1) i b
          (@decIdx 2 1 1 (by infer_instance)
            ⟨fun _ _ => 0, fun _ _ => 0, fun _ => 0,
              fun _ _ _ => (fun _ => 0, fun _ => 0)⟩
            (fun _ _ _ => 0) (fun _ : Fin 2 => 1) (fun _ _ => 0)
            (fun _ _ => 0) i b) = true ∧
        (@decIdx 2 1 1 (by infer_instance)
            ⟨fun _ _ => 0, fun _ _ => 0, fun _ => 0,
              fun _ _ _ => (fun _ => 0, fun _ => 0)⟩
            (fun _ _ _ => 0) (fun _ : Fin 2 => 1) (fun _ _ => 0)
            (fun _ _ => 0) i b).val < (fun _ : Fin 2 => 1) b) ∧
      ((fun _ : Fin 2 => 1) b ≤ i →
        ∀ j : Fin 1, subMask (fun _ : Fin 2 => 1) i b j = false)) := by
  have hsc : ∀ (i : ℕ) (b : Fin 2) (j : Fin 1), i < (fun _ : Fin 2 => 1) b →
      subMask (fun _ : Fin 2 => 1) i b j = true →
      minValDefault <
        @decScore 2 1 1 (by infer_instance)
          ⟨fun _ _ => 0, fun _ _ => 0, fun _ => 0,
            fun _ _ _ => (fun _ => 0, fun _ => 0)⟩
          (fun _ _ _ => 0) (fun _ : Fin 2 => 1) (fun _ _ => 0)
          (fun _ _ => 0) i b j := by
    intro i b j hi hj
    have hscore :
        @decScore 2 1 1 (by infer_instance)
          ⟨fun _ _ => 0, fun _ _ => 0, fun _ => 0,
            fun _ _ _ => (fun _ => 0, fun _ => 0)⟩
          (fun _ _ _ => 0) (fun _ : Fin 2 => 1) (fun _ _ => 0)
          (fun _ _ => 0) i b j = 0 := by
      show masked_log_softmax
        (attnRawScores (fun _ _ => 0) (fun _ _ => 0) (fun _ => 0) _
          (fun _ _ => 0)) (subMask (fun _ : Fin 2 => 1) i b) j = 0
      interval_cases i
      · have hm : subMask (fun _ : Fin 2 => (1 : ℕ)) 0 b =
            fun _ : Fin 1 => true := by
          funext k
          simp [subMask, Nat.lt_one_iff.mp k.isLt]
        simp only [masked_log_softmax, logSoftmax, shiftedScores,
          attnRawScores, vtApply, linearNoBias, maskFloat, hm,
          Finset.sum_const_zero, zero_mul, if_true, zero_add,
          Fin.sum_univ_one]
        rw [Real.exp_log (by unfold maskEps; norm_num)]
        exact sub_self _
    rw [hscore]
    unfold minValDefault
    norm_num
  exact ⟨fun b => le_refl 1, hsc,
    c5_selected_index_in_mask
      ⟨fun _ _ => 0, fun _ _ => 0, fun _ => 0,
        fun _ _ _ => (fun _ => 0, fun _ => 0)⟩
      (fun _ _ _ => 0) (fun _ : Fin 2 => 1) (fun _ _ => 0) (fun _ _ => 0)
      (fun b => le_refl 1) hsc⟩

/-- Claim C3: the epsilon-shifted mask keeps every logarithm argument
strictly positive and every softmax denominator strictly positive (for
every mask, fully-masked rows included, so the computation never
produces NaN or infinite values at exact-real semantics); and for every
row with at least one unmasked position, the exponentiated output
summed over the unmasked positions is at most 1 and falls short of 1 by
at most `maskEps` times the ratio of masked to unmasked exponentiated
score mass — the floating tolerance of the claim, since `maskEps` is
1e-45. -/
theorem c3_masked_log_softmax_normalized {n : ℕ} (v : Fin n → ℝ)
    (m : Fin n → Bool) (hne : ∃ j, m j = true) :
    (∀ (m' : Fin n → Bool) (k : Fin n), 0 < maskFloat m' k + maskEps) ∧
    (∀ m' : Fin n → Bool, 0 < ∑ k, Real.exp (shiftedScores v m' k)) ∧
    (∑ j ∈ Finset.univ.filter (fun j => m j = true),
        Real.exp (masked_log_softmax v m j)) ≤ 1 ∧
    1 - (∑ j ∈ Finset.univ.filter (fun j => m j = true),
          Real.exp (masked_log_softmax v m j)) ≤
      maskEps *
        ((∑ j ∈ Finset.univ.filter (fun j => ¬ m j = true),
            Real.exp (v j)) /
          (∑ j ∈ Finset.univ.filter (fun j => m j = true),
            Real.exp (v j))) := by
  have hepos : (0 : ℝ) < maskEps := by unfold maskEps; norm_num
  have hMF : ∀ (m' : Fin n → Bool) (k : Fin n),
      0 < maskFloat m' k + maskEps := by
    intro m' k
    have h0 : (0 : ℝ) ≤ maskFloat m' k := by
      unfold maskFloat
      split <;> norm_num
    linarith
  have hexp : ∀ (m' : Fin n → Bool) (k : Fin n),
      Real.exp (shiftedScores v m' k) =
        Real.exp (v k) * (maskFloat m' k + maskEps) := by
    intro m' k
    unfold shiftedScores
    rw [Real.exp_add, Real.exp_log (hMF m' k)]
  have hDpos : ∀ m' : Fin n → Bool,
      0 < ∑ k, Real.exp (shiftedScores v m' k) := by
    intro m'
    obtain ⟨j0, _⟩ := hne
    exact Finset.sum_pos (fun k _ => Real.exp_pos _) ⟨j0, Finset.mem_univ _⟩
  have hS1pos :
      0 < ∑ j ∈ Finset.univ.filter (fun j => m j = true), Real.exp (v j) := by
    obtain ⟨j0, hj0⟩ := hne
    exact Finset.sum_pos (fun k _ => Real.exp_pos _)
      ⟨j0, Finset.mem_filter.mpr ⟨Finset.mem_univ _, hj0⟩⟩
  have hS0nonneg :
      0 ≤ ∑ j ∈ Finset.univ.filter (fun j => ¬ m j = true),
        Real.exp (v j) :=
    Finset.sum_nonneg fun k _ => (Real.exp_pos _).le
  have e1 : ∑ k ∈ Finset.univ.filter (fun j => m j = true),
      Real.exp (shiftedScores v m k) =
      (∑ j ∈ Finset.univ.filter (fun j => m j = true), Real.exp (v j)) *
        (1 + maskEps) := by
    rw [Finset.sum_mul]
    refine Finset.sum_congr rfl fun k hk => ?_
    have hmk : m k = true := (Finset.mem_filter.mp hk).2
    rw [hexp m k]
    simp [maskFloat, hmk]
  have e0 : ∑ k ∈ Finset.univ.filter (fun j => ¬ m j = true),
      Real.exp (shiftedScores v m k) =
      (∑ j ∈ Finset.univ.filter (fun j => ¬ m j = true), Real.exp (v j)) *
        maskEps := by
    rw [Finset.sum_mul]
    refine Finset.sum_congr rfl fun k hk => ?_
    have hmk : ¬ m k = true := (Finset.mem_filter.mp hk).2
    rw [Bool.not_eq_true] at hmk
    rw [hexp m k]
    simp [maskFloat, hmk]
  have hDeq : ∑ k, Real.exp (shiftedScores v m k) =
      (∑ j ∈ Finset.univ.filter (fun j => m j = true), Real.exp (v j)) *
        (1 + maskEps) +
      (∑ j ∈ Finset.univ.filter (fun j => ¬ m j = true), Real.exp (v j)) *
        maskEps := by
    rw [← e1, ← e0]
    exact (Finset.sum_filter_add_sum_filter_not Finset.univ
      (fun j => m j = true) _).symm
  have hDne : (∑ k, Real.exp (shiftedScores v m k)) ≠ 0 := (hDpos m).ne'
  have hout : ∑ j ∈ Finset.univ.filter (fun j => m j = true),
      Real.exp (masked_log_softmax v m j) =
      ((∑ j ∈ Finset.univ.filter (fun j => m j = true), Real.exp (v j)) *
        (1 + maskEps)) / (∑ k, Real.exp (shiftedScores v m k)) := by
    rw [← e1, Finset.sum_div]
    refine Finset.sum_congr rfl fun k _ => ?_
    unfold masked_log_softmax logSoftmax
    rw [Real.exp_sub, Real.exp_log (hDpos m)]
  have hS1leD :
      (∑ j ∈ Finset.univ.filter (fun j => m j = true), Real.exp (v j)) ≤
        ∑ k, Real.exp (shiftedScores v m k) := by
    rw [hDeq]
    have hb : (∑ j ∈ Finset.univ.filter (fun j => m j = true),
        Real.exp (v j)) * (1 + maskEps) =
        (∑ j ∈ Finset.univ.filter (fun j => m j = true), Real.exp (v j)) +
        (∑ j ∈ Finset.univ.filter (fun j => m j = true), Real.exp (v j)) *
          maskEps := by ring
    have h1 := mul_nonneg hS1pos.le hepos.le
    have h2 := mul_nonneg hS0nonneg hepos.le
    linarith
  refine ⟨hMF, hDpos, ?_, ?_⟩
  · rw [hout, div_le_one (hDpos m), hDeq]
    have h2 := mul_nonneg hS0nonneg hepos.le
    linarith
  · rw [hout, one_sub_div hDne]
    have hnum :
        (∑ j ∈ Finset.univ.filter (fun j => m j = true), Real.exp (v j)) *
          (1 + maskEps) +
        (∑ j ∈ Finset.univ.filter (fun j => ¬ m j = true), Real.exp (v j)) *
          maskEps -
        (∑ j ∈ Finset.univ.filter (fun j => m j = true), Real.exp (v j)) *
          (1 + maskEps) =
        (∑ j ∈ Finset.univ.filter (fun j => ¬ m j = true), Real.exp (v j)) *
          maskEps := by ring
    rw [hDeq, hnum, ← hDeq]
    calc (∑ j ∈ Finset.univ.filter (fun j => ¬ m j = true),
            Real.exp (v j)) * maskEps /
          (∑ k, Real.exp (shiftedScores v m k)) ≤
        (∑ j ∈ Finset.univ.filter (fun j => ¬ m j = true),
            Real.exp (v j)) * maskEps /
          (∑ j ∈ Finset.univ.filter (fun j => m j = true), Real.exp (v j)) :=
          div_le_div_of_nonneg_left (mul_nonneg hS0nonneg hepos.le) hS1pos
            hS1leD
      _ = maskEps *
          ((∑ j ∈ Finset.univ.filter (fun j => ¬ m j = true),
              Real.exp (v j)) /
            (∑ j ∈ Finset.univ.filter (fun j => m j = true),
              Real.exp (v j))) := by
          rw [mul_comm _ maskEps, mul_div_assoc]

/-- Witness for C3 at a concrete input: scores (0, 0) on `Fin 2` with
mask (true, false). -/
theorem c3_masked_log_softmax_normalized_witness :
    (∃ j : Fin 2, (fun j : Fin 2 => decide (j.val = 0)) j = true) ∧
    ((∀ (m' : Fin 2 → Bool) (k : Fin 2), 0 < maskFloat m' k + maskEps) ∧
      (∀ m' : Fin 2 → Bool,
        0 < ∑ k, Real.exp (shiftedScores (fun _ : Fin 2 => (0 : ℝ)) m' k)) ∧
      (∑ j ∈ Finset.univ.filter
          (fun j : Fin 2 => (fun j : Fin 2 => decide (j.val = 0)) j = true),
          Real.exp (masked_log_softmax (fun _ : Fin 2 => (0 : ℝ))
            (fun j : Fin 2 => decide (j.val = 0)) j)) ≤ 1 ∧
      1 - (∑ j ∈ Finset.univ.filter
            (fun j : Fin 2 => (fun j : Fin 2 => decide (j.val = 0)) j = true),
            Real.exp (masked_log_softmax (fun _ : Fin 2 => (0 : ℝ))
              (fun j : Fin 2 => decide (j.val = 0)) j)) ≤
        maskEps *
          ((∑ j ∈ Finset.univ.filter
              (fun j : Fin 2 =>
                ¬ (fun j : Fin 2 => decide (j.val = 0)) j = true),
              Real.exp ((fun _ : Fin 2 => (0 : ℝ)) j)) /
            (∑ j ∈ Finset.univ.filter
              (fun j : Fin 2 => (fun j : Fin 2 => decide (j.val = 0)) j = true),
              Real.exp ((fun _ : Fin 2 => (0 : ℝ)) j)))) :=
  ⟨by decide,
    c3_masked_log_softmax_normalized (fun _ : Fin 2 => (0 : ℝ))
      (fun j : Fin 2 => decide (j.val = 0)) (by decide)⟩
